import Mathlib

/-!
Verification of DumpSleuth (src/src/dumpsleuth) against its natural-language
specification.

This file shallowly embeds the Python source:

* bytes are `List Nat` (each entry a byte value 0..255);
* Python strings are Lean `String` / `List Char`;
* fallible Python code (code that can raise) returns `Except String _`,
  the payload of `.error` being the exception message;
* Python dicts with string keys are association lists `List (String × V)`
  with insertion-order semantics (`dictSet` mirrors `d[k] = v`: an existing
  key is updated in place, a new key is appended).

Each definition is a direct translation of the function of the same (or
snake-to-camel-cased) name in the source tree.
-/

set_option maxHeartbeats 1000000

/-! ## Python primitives used by the source -/

/-- Python dict assignment `d[k] = v`: update in place when the key exists,
append otherwise (insertion-order semantics of Python 3.7+ dicts). -/
def dictSet {V : Type} (m : List (String × V)) (k : String) (v : V) :
    List (String × V) :=
  if m.any (fun kv => kv.1 = k) then
    m.map (fun kv => if kv.1 = k then (k, v) else kv)
  else
    m ++ [(k, v)]

/-- Python dict lookup `d.get(k)` / `d[k]` as an `Option`. -/
def dictGet {V : Type} (m : List (String × V)) (k : String) : Option V :=
  (m.find? (fun kv => kv.1 = k)).map (fun kv => kv.2)

/-- Normalisation of a (non-negative) Python slice index against a length. -/
def pyIdx (len : Nat) (i : Int) : Nat :=
  if i < 0 then (len + i).toNat else min i.toNat len

/-- Python slicing `l[a:b]` (step 1). Negative indices count from the end;
out-of-range indices are clamped; the result is empty when the normalised
start is at or past the normalised stop. -/
def pySlice {α : Type} (l : List α) (a b : Int) : List α :=
  (l.take (pyIdx l.length b)).drop (pyIdx l.length a)

/-- Python file-object `read(size)` after `seek(pos)`: a negative size reads
to end of file, otherwise at most `size` bytes from `pos` are returned, and
a short (possibly empty) result is returned past end of file. -/
def pyFileRead {α : Type} (contents : List α) (pos : Nat) (size : Int) :
    List α :=
  if size < 0 then contents.drop pos else (contents.drop pos).take size.toNat

/-! ## `core/parser.py`: `DumpData` -/

/-- Shallow embedding of the `DumpData` dataclass.  The Python object holds
`file_handle` / `mmap_handle`, both views of one underlying file; here the
file contents are carried once and two flags record which handles are open
(a `None` handle in Python is a `false` flag here). -/
structure DumpData where
  contents : List Nat
  hasMmap : Bool
  hasFile : Bool

/-- `DumpData.read(offset, size)`: slice the mmap when one is open, else
seek-and-read the file handle, else raise `RuntimeError`.  `offset` is kept
a natural number (the contract and all call sites use non-negative
offsets). -/
def DumpData.read (d : DumpData) (offset : Nat) (size : Int) :
    Except String (List Nat) :=
  if d.hasMmap then
    if size = -1 then Except.ok (d.contents.drop offset)
    else Except.ok (pySlice d.contents (offset : Int) ((offset : Int) + size))
  else if d.hasFile then
    Except.ok (pyFileRead d.contents offset size)
  else
    Except.error "No data handle available"

/-! ## `core/parser.py`: `DumpParser._parse_size` -/

/-- Python `str.strip()` on a character list (ASCII whitespace). -/
def pyStrip (cs : List Char) : List Char :=
  ((cs.dropWhile Char.isWhitespace).reverse.dropWhile Char.isWhitespace).reverse

/-- Digits helper: the value of a list of decimal digit characters. -/
def digitsVal (cs : List Char) : Nat :=
  cs.foldl (fun a c => a * 10 + (c.toNat - 48)) 0

/-- Mantissa of a Python float literal: `digits`, `digits.digits`,
`digits.`, or `.digits`, with at least one digit; returns the value. -/
def pyFloatMantissa (cs : List Char) : Option ℚ :=
  let intPart := cs.takeWhile Char.isDigit
  let rest := cs.dropWhile Char.isDigit
  match rest with
  | [] => if intPart.isEmpty then none else some (digitsVal intPart : ℚ)
  | '.' :: frac =>
      if frac.all Char.isDigit ∧ ¬(intPart.isEmpty ∧ frac.isEmpty) then
        some ((digitsVal intPart : ℚ) + (digitsVal frac : ℚ) / ((10 : ℚ) ^ frac.length))
      else none
  | _ => none

/-- Python `float(s)` restricted to finite decimal literals
`[+-]?digits[.digits][(e|E)[+-]?digits]` surrounded by optional whitespace;
every other string raises `ValueError` (in particular any string containing
a letter other than an exponent marker, such as `2G`). -/
def pyFloat (s : String) : Except String ℚ :=
  let cs := pyStrip s.toList
  let signed : List Char × Bool :=
    match cs with
    | '+' :: rest => (rest, false)
    | '-' :: rest => (rest, true)
    | _ => (cs, false)
  let mant := signed.1.takeWhile (fun c => c ≠ 'e' ∧ c ≠ 'E')
  let expPart := signed.1.dropWhile (fun c => c ≠ 'e' ∧ c ≠ 'E')
  let expVal : Option Int :=
    match expPart with
    | [] => some 0
    | _ :: '+' :: ds => if ds.isEmpty ∨ ¬ds.all Char.isDigit then none else some (digitsVal ds)
    | _ :: '-' :: ds => if ds.isEmpty ∨ ¬ds.all Char.isDigit then none else some (-(digitsVal ds : Int))
    | _ :: ds => if ds.isEmpty ∨ ¬ds.all Char.isDigit then none else some (digitsVal ds)
  match pyFloatMantissa mant, expVal with
  | some m, some e =>
      Except.ok ((if signed.2 then -m else m) * (10 : ℚ) ^ e)
  | _, _ => Except.error ("could not convert string to float: " ++ s)

/-- Python `int(q)` for a rational: truncation toward zero. -/
def pyIntOfRat (q : ℚ) : Int :=
  if 0 ≤ q then ⌊q⌋ else -⌊-q⌋

/-- Python `int(s)` restricted to `[+-]?digits` with optional surrounding
whitespace; every other string raises `ValueError`. -/
def pyIntOfString (s : String) : Except String Int :=
  let cs := pyStrip s.toList
  let signed : List Char × Bool :=
    match cs with
    | '+' :: rest => (rest, false)
    | '-' :: rest => (rest, true)
    | _ => (cs, false)
  if signed.1.isEmpty ∨ ¬signed.1.all Char.isDigit then
    Except.error ("invalid literal for int: " ++ s)
  else
    Except.ok (if signed.2 then -(digitsVal signed.1 : Int) else (digitsVal signed.1 : Int))

/-- The `multipliers` dict of `DumpParser._parse_size`, in insertion order:
the iteration checks the suffix `B` first. -/
def sizeMultipliers : List (String × Nat) :=
  [("B", 1), ("KB", 1024), ("MB", 1024 * 1024), ("GB", 1024 * 1024 * 1024),
   ("TB", 1024 * 1024 * 1024 * 1024)]

/-- `DumpParser._parse_size`: upper-case and strip the string, then try the
suffixes in dict order (`B` first); on the first suffix match, convert the
remaining prefix with `float` (which may raise) and multiply; with no
matching suffix fall back to `int(size_str)`. -/
def parseSize (sizeStr : String) : Except String Int :=
  let s := String.mk (pyStrip (sizeStr.toList.map Char.toUpper))
  match sizeMultipliers.find? (fun sm => sm.1.toList.isSuffixOf s.toList) with
  | some (suffix, multiplier) =>
      match pyFloat (String.mk (s.toList.take (s.toList.length - suffix.toList.length))) with
      | Except.ok number => Except.ok (pyIntOfRat (number * multiplier))
      | Except.error e => Except.error e
  | none => pyIntOfString s

/-- The file-size cap check of `DumpParser.__init__`: parse the configured
`analysis.max_file_size` string (default `2GB`) and raise `ValueError` when
the file is larger. -/
def checkFileSize (fileSize : Nat) (maxSizeStr : String) : Except String Unit :=
  match parseSize maxSizeStr with
  | Except.error e => Except.error e
  | Except.ok maxSize =>
      if (fileSize : Int) > maxSize then
        Except.error "Dump file too large"
      else
        Except.ok ()

/-! ## `core/parser.py`: format detection and `DumpParser.parse` -/

/-- Byte string `b"MDMP"`. -/
def bMDMP : List Nat := [77, 68, 77, 80]

/-- Byte string `b"PAGEDU64"`. -/
def bPAGEDU64 : List Nat := [80, 65, 71, 69, 68, 85, 54, 52]

/-- Byte string `b"PAGEDUMP"`. -/
def bPAGEDUMP : List Nat := [80, 65, 71, 69, 68, 85, 77, 80]

/-- Byte string `b"HIBR"`. -/
def bHIBR : List Nat := [72, 73, 66, 82]

/-- Byte string `b"EMF"`. -/
def bEMF : List Nat := [69, 77, 70]

/-- Byte string `b"\x7fELF"`. -/
def bELF : List Nat := [127, 69, 76, 70]

/-- The `DumpParser.SIGNATURES` dict, in insertion order. -/
def SIGNATURES : List (List Nat × String) :=
  [(bMDMP, "minidump"), (bPAGEDU64, "dmp64"), (bPAGEDUMP, "dmp32"),
   (bHIBR, "hibernation"), (bEMF, "vmware")]

/-- The four Mach-O magic variants checked by `detect_format`. -/
def machoMagics : List (List Nat) :=
  [[254, 237, 250, 206], [206, 250, 237, 254], [254, 237, 250, 207], [207, 250, 237, 254]]

/-- `DumpParser.detect_format`: first matching signature prefix in dict
order, then the ELF magic, then the Mach-O magics, else `None`. -/
def detectFormat (data : List Nat) : Option String :=
  match SIGNATURES.find? (fun sf => sf.1.isPrefixOf data) with
  | some sf => some sf.2
  | none =>
      if bELF.isPrefixOf data then some "elf_core"
      else if machoMagics.contains (data.take 4) then some "macho_core"
      else none

/-- Values stored in the `metadata` dict of a `DumpData`: strings, numbers,
or raw byte strings. -/
inductive MetaVal where
  | s (v : String)
  | n (v : Nat)
  | bytes (v : List Nat)
deriving DecidableEq

/-- A metadata dict. -/
abbrev Metadata := List (String × MetaVal)

/-- Little-endian unsigned 32-bit read at `off` (struct format `<I`). -/
def readU32LE (b : List Nat) (off : Nat) : Nat :=
  b.getD off 0 + 256 * b.getD (off + 1) 0 + 65536 * b.getD (off + 2) 0 +
    16777216 * b.getD (off + 3) 0

/-- Python `struct.unpack('<4sIIIIII', buf)`: the format describes 4 + 6 × 4
= 28 bytes, and `unpack` raises `struct.error` unless the buffer length is
exactly 28; on success it yields the 4-byte string and the six little-endian
unsigned fields. -/
def structUnpack4sIIIIII (buf : List Nat) :
    Except String (List Nat × Nat × Nat × Nat × Nat × Nat × Nat) :=
  if buf.length = 28 then
    Except.ok (buf.take 4, readU32LE buf 4, readU32LE buf 8, readU32LE buf 12,
      readU32LE buf 16, readU32LE buf 20, readU32LE buf 24)
  else
    Except.error "unpack requires a buffer of 28 bytes"

/-- Decode a byte string to text, dropping non-ASCII bytes (models the
`errors="ignore"` decodes of the source on the ASCII subset). -/
def decodeAsciiIgnore (bs : List Nat) : String :=
  String.mk ((bs.filter (fun b => b < 128)).map Char.ofNat)

/-- `DumpParser._parse_minidump_header`: read 32 header bytes, raise
`ValueError` when fewer are available, then unpack with struct format
`<4sIIIIII` (which raises: the buffer has 32 bytes, the format 28) and, on
success, record signature/version/stream_count/timestamp/flags. -/
def parseMinidumpHeader (fileBytes : List Nat) (metadata : Metadata) :
    Except String Metadata :=
  let headerData := pySlice fileBytes 0 32
  if headerData.length < 32 then
    Except.error "Invalid minidump header"
  else
    match structUnpack4sIIIIII headerData with
    | Except.error e => Except.error e
    | Except.ok (signature, version, streamCount, _streamRva, _checksum, timestamp, flags) =>
        Except.ok (dictSet (dictSet (dictSet (dictSet (dictSet metadata
          "signature" (MetaVal.s (decodeAsciiIgnore signature)))
          "version" (MetaVal.n version))
          "stream_count" (MetaVal.n streamCount))
          "timestamp" (MetaVal.n timestamp))
          "flags" (MetaVal.n flags))

/-- First index at or after `start` where `needle` occurs in `hay`, as
Python `bytes.find` (−1 when absent). -/
def pyFind (hay : List Nat) (needle : List Nat) (start : Nat) : Int :=
  match (List.range (hay.length + 1)).find?
      (fun i => start ≤ i ∧ needle.isPrefixOf (hay.drop i)) with
  | some i => (i : Int)
  | none => -1

/-- Byte string `b"Windows"`. -/
def bWindows : List Nat := [87, 105, 110, 100, 111, 119, 115]

/-- `DumpParser._parse_windows_dump_header`: best-effort text search in the
first 4096 bytes; never raises.  Records `dump_type` and, when a
NUL-terminated `Windows...` run is present, `os_version`. -/
def parseWindowsDumpHeader (fileBytes : List Nat) (metadata : Metadata) :
    Except String Metadata :=
  let headerData := pySlice fileBytes 0 4096
  let md := dictSet metadata "dump_type" (MetaVal.s "windows_full")
  if 0 ≤ pyFind headerData bWindows 0 then
    let start := pyFind headerData bWindows 0
    let stop := pyFind headerData [0] start.toNat
    if stop > start then
      Except.ok (dictSet md "os_version"
        (MetaVal.bytes (pySlice headerData start stop)))
    else Except.ok md
  else Except.ok md

/-- `DumpParser._parse_elf_header`: read 64 bytes, raise `ValueError` when
fewer than 52 are available or the magic mismatches, else record
architecture and endianness from `e_ident`. -/
def parseElfHeader (fileBytes : List Nat) (metadata : Metadata) :
    Except String Metadata :=
  let headerData := pySlice fileBytes 0 64
  if headerData.length < 52 then
    Except.error "Invalid ELF header"
  else if headerData.take 4 ≠ bELF then
    Except.error "Invalid ELF magic"
  else
    let eiClass := headerData.getD 4 0
    let eiData := headerData.getD 5 0
    Except.ok (dictSet (dictSet (dictSet metadata
      "format_details" (MetaVal.s "elf_core"))
      "arch" (MetaVal.s (if eiClass = 2 then "64-bit" else "32-bit")))
      "endianness" (MetaVal.s (if eiData = 1 then "little" else "big")))

/-- `DumpParser._parse_metadata`: dispatch on the detected format. -/
def parseMetadata (fileBytes : List Nat) (format : String) (metadata : Metadata) :
    Except String Metadata :=
  if format = "minidump" then parseMinidumpHeader fileBytes metadata
  else if format = "dmp64" ∨ format = "dmp32" then parseWindowsDumpHeader fileBytes metadata
  else if format = "elf_core" then parseElfHeader fileBytes metadata
  else Except.ok metadata

/-- `DumpParser.parse` for a file that opens successfully: read a 4096-byte
header window, detect the format; on a detected format, record it and parse
the format-specific metadata, re-raising any failure unless `recovery_mode`
is set; on no match record format `unknown`; finally record `file_size` and
`file_name`. -/
def parserParse (fileBytes : List Nat) (fileName : String) (recoveryMode : Bool) :
    Except String Metadata :=
  let finalize : Metadata → Metadata := fun md =>
    dictSet (dictSet md "file_size" (MetaVal.n fileBytes.length))
      "file_name" (MetaVal.s fileName)
  let header := pySlice fileBytes 0 4096
  match detectFormat header with
  | some fmt =>
      let md1 := dictSet [] "format" (MetaVal.s fmt)
      match parseMetadata fileBytes fmt md1 with
      | Except.ok md2 => Except.ok (finalize md2)
      | Except.error e =>
          if recoveryMode then Except.ok (finalize md1) else Except.error e
  | none => Except.ok (finalize (dictSet [] "format" (MetaVal.s "unknown")))

/-! ## `core/plugin.py`: `PluginManager` -/

/-- Shallow embedding of a registered `AnalyzerPlugin` for one fixed run
input: `name` is `get_metadata().name`, `priority` is `get_priority()`,
`validateData` is the outcome of `validate_data(data)` on the run's data,
and `analyzeResult` is the outcome of `analyze(data, context)` — `ok` for a
normal return, `error` for a raised exception (carrying `str(e)`). -/
structure Plugin (D : Type) where
  name : String
  priority : Int
  validateData : Bool
  analyzeResult : Except String D

instance {ε α : Type} [DecidableEq ε] [DecidableEq α] : DecidableEq (Except ε α) :=
  fun x y =>
    match x, y with
    | Except.ok a, Except.ok b =>
        if h : a = b then Decidable.isTrue (by rw [h]) else Decidable.isFalse (by simp [h])
    | Except.ok _, Except.error _ => Decidable.isFalse (by simp)
    | Except.error _, Except.ok _ => Decidable.isFalse (by simp)
    | Except.error e, Except.error f =>
        if h : e = f then Decidable.isTrue (by rw [h]) else Decidable.isFalse (by simp [h])

instance {D : Type} [DecidableEq D] : DecidableEq (Plugin D) :=
  fun p q =>
    decidable_of_iff (p.name = q.name ∧ p.priority = q.priority ∧
        p.validateData = q.validateData ∧ p.analyzeResult = q.analyzeResult)
      (by cases p; cases q; simp [Plugin.mk.injEq])

/-- One entry of the result dict built by `PluginManager.run_analysis`:
`results` is `none` for the empty dict placeholder of the failure branches,
`error` is `none` when the `"error"` key is absent. -/
structure PluginResult (D : Type) where
  results : Option D
  success : Bool
  error : Option String
deriving DecidableEq

/-- Shallow embedding of `PluginManager` state: the `plugins` registry dict
(keyed by metadata name, in registration order) and the `enabled_plugins`
name list (in enable order). -/
structure PluginManager (D : Type) where
  plugins : List (String × Plugin D)
  enabledPlugins : List String

/-- The per-plugin body of the `run_analysis` loop: `validate_data` gate,
then `analyze` with its exception handler. -/
def pluginOutcome {D : Type} (p : Plugin D) : PluginResult D :=
  if p.validateData then
    match p.analyzeResult with
    | Except.ok d => ⟨some d, true, none⟩
    | Except.error e => ⟨none, false, some e⟩
  else
    ⟨none, false, some "Data validation failed"⟩

/-- The loop of `PluginManager.run_analysis` over an already-ordered plugin
list: each iteration stores that plugin's outcome into the result dict under
its metadata name. -/
def runAnalysisList {D : Type} (ps : List (Plugin D)) :
    List (String × PluginResult D) :=
  ps.foldl (fun results p => dictSet results p.name (pluginOutcome p)) []

/-- Stable insertion into a priority-descending list: the new element goes
before the first element of priority ≤ its own (so equal priorities keep
their original relative order, as Python's stable `sorted`). -/
def insertDesc {D : Type} (p : Plugin D) : List (Plugin D) → List (Plugin D)
  | [] => [p]
  | q :: l => if q.priority ≤ p.priority then p :: q :: l else q :: insertDesc p l

/-- Python `sorted(plugins, key=lambda p: p.get_priority(), reverse=True)`:
a stable sort by descending priority. -/
def sortDesc {D : Type} : List (Plugin D) → List (Plugin D)
  | [] => []
  | p :: l => insertDesc p (sortDesc l)

/-- The list comprehension of `get_enabled_plugins` before sorting:
`[self.plugins[name] for name in self.enabled_plugins if name in self.plugins]`. -/
def enabledRaw {D : Type} (m : PluginManager D) : List (Plugin D) :=
  m.enabledPlugins.filterMap (fun n => dictGet m.plugins n)

/-- `PluginManager.get_enabled_plugins`: the enabled, registered plugins
sorted by descending priority. -/
def getEnabledPlugins {D : Type} (m : PluginManager D) : List (Plugin D) :=
  sortDesc (enabledRaw m)

/-- `PluginManager.run_analysis`: run every enabled plugin, in
`get_enabled_plugins` order, collecting a name-keyed result dict. -/
def managerRunAnalysis {D : Type} (m : PluginManager D) :
    List (String × PluginResult D) :=
  runAnalysisList (getEnabledPlugins m)

/-! ## `extractors/network.py`: `NetworkExtractor._classify_ip` -/

/-- The six labels `_classify_ip` can return. -/
def ipLabels : List String :=
  ["private_class_a", "private_class_b", "private_class_c", "loopback",
   "multicast", "public"]

/-- `NetworkExtractor._classify_ip` on the octet values (`octets[0]` and
`octets[1]` are the only entries the chain reads). -/
def classifyIp (octets : List Nat) : String :=
  let o0 := octets.getD 0 0
  let o1 := octets.getD 1 0
  if o0 = 10 then "private_class_a"
  else if o0 = 172 ∧ 16 ≤ o1 ∧ o1 ≤ 31 then "private_class_b"
  else if o0 = 192 ∧ o1 = 168 then "private_class_c"
  else if o0 = 127 then "loopback"
  else if 224 ≤ o0 then "multicast"
  else "public"

/-- Split a character list on a separator character (Python `str.split`). -/
def splitOnChar (sep : Char) : List Char → List (List Char)
  | [] => [[]]
  | c :: cs =>
      let rest := splitOnChar sep cs
      if c = sep then [] :: rest
      else match rest with
        | [] => [[c]]
        | r :: rs => (c :: r) :: rs

/-- `_classify_ip` on the dotted-quad string: `ip.split('.')` mapped through
`int(x)` (defined here on numeric octet strings, the only ones the caller
passes after `_extract_ips` validation). -/
def classifyIpStr (ip : String) : String :=
  classifyIp ((splitOnChar '.' ip.toList).map digitsVal)

/-! ## `extractors/strings_plugin.py`: `_extract_ascii_strings` -/

/-- Membership of a byte in the printable-ASCII class `[\x20-\x7E]`. -/
def isPrintableByte (b : Nat) : Bool := 32 ≤ b ∧ b ≤ 126

/-- One-pass scanner collecting maximal printable runs; `acc` holds the
(reversed) printable run currently being read. -/
def asciiRunsGo : List Nat → List Nat → List (List Nat)
  | acc, [] => if acc = [] then [] else [acc.reverse]
  | acc, b :: rest =>
      if isPrintableByte b then asciiRunsGo (b :: acc) rest
      else if acc = [] then asciiRunsGo [] rest
      else acc.reverse :: asciiRunsGo [] rest

/-- The maximal contiguous printable-ASCII runs of a byte buffer, in order.
`re.findall(rb"[\x20-\x7E]{n,}", data)` returns the leftmost, non-overlapping,
greedy matches of the printable class, i.e. exactly the maximal printable
runs of length ≥ n; this function produces all maximal runs, and
`extractAsciiStrings` applies the length bound. -/
def asciiRuns (data : List Nat) : List (List Nat) :=
  asciiRunsGo [] data

/-- `StringExtractor._extract_ascii_strings`: the maximal printable runs of
length ≥ `minLength` (the byte-to-`str` decode is the identity on the
printable-ASCII range and is left at the byte level here). -/
def extractAsciiStrings (data : List Nat) (minLength : Nat) : List (List Nat) :=
  (asciiRuns data).filter (fun r => minLength ≤ r.length)

/-! ## A small regular-expression semantics for the source's `re` patterns

The category / signal patterns of `strings_plugin.py` are concrete Python
regexes; they are embedded here as abstract syntax trees over character
classes and matched with Brzozowski derivatives.  `re.search` is matching
of some substring, `re.match` of a `^...$`-anchored pattern is whole-string
matching.  `re.IGNORECASE` (used for every category pattern) is encoded by
case-insensitive literals and case-closed classes. -/

/-- Regular expressions over characters. -/
inductive Rx where
  | emp
  | eps
  | cls (p : Char → Bool)
  | cat (r1 r2 : Rx)
  | alt (r1 r2 : Rx)
  | star (r : Rx)

/-- Whether a regex accepts the empty string. -/
def Rx.nullable : Rx → Bool
  | emp => false
  | eps => true
  | cls _ => false
  | cat a b => a.nullable && b.nullable
  | alt a b => a.nullable || b.nullable
  | star _ => true

/-- Brzozowski derivative with respect to one character. -/
def Rx.deriv : Rx → Char → Rx
  | emp, _ => emp
  | eps, _ => emp
  | cls p, c => if p c then eps else emp
  | cat a b, c =>
      if a.nullable then alt (cat (a.deriv c) b) (b.deriv c) else cat (a.deriv c) b
  | alt a b, c => alt (a.deriv c) (b.deriv c)
  | star r, c => cat (r.deriv c) (star r)

/-- Whole-string match. -/
def rxMatch (r : Rx) (cs : List Char) : Bool :=
  (cs.foldl Rx.deriv r).nullable

/-- Python `re.search(r, s)`: `r` matches some substring of `s`. -/
def reSearch (r : Rx) (s : String) : Bool :=
  let cs := s.toList
  (List.range (cs.length + 1)).any (fun i =>
    (List.range (cs.length - i + 1)).any (fun j => rxMatch r ((cs.drop i).take j)))

/-- Case-sensitive literal character. -/
def rxc (c : Char) : Rx := Rx.cls (fun x => x = c)

/-- Case-insensitive literal character (`re.IGNORECASE`). -/
def rxic (c : Char) : Rx := Rx.cls (fun x => x.toLower = c.toLower)

/-- Concatenation of a list of regexes. -/
def rxSeq (l : List Rx) : Rx := l.foldr Rx.cat Rx.eps

/-- Case-insensitive literal word. -/
def rxIStr (s : String) : Rx := rxSeq (s.toList.map rxic)

/-- Alternation of a non-empty list of regexes. -/
def rxAlts : List Rx → Rx
  | [] => Rx.emp
  | [r] => r
  | r :: rs => Rx.alt r (rxAlts rs)

/-- `r?`. -/
def rxOpt (r : Rx) : Rx := Rx.alt r Rx.eps

/-- `r+`. -/
def rxPlus (r : Rx) : Rx := Rx.cat r (Rx.star r)

/-- `r{n}` (n concatenated copies). -/
def rxPow (r : Rx) : Nat → Rx
  | 0 => Rx.eps
  | n + 1 => Rx.cat r (rxPow r n)

/-- `r{n,}`. -/
def rxAtLeast (r : Rx) (n : Nat) : Rx := Rx.cat (rxPow r n) (Rx.star r)

/-- `r{0,m}`. -/
def rxAtMost (r : Rx) : Nat → Rx
  | 0 => Rx.eps
  | m + 1 => Rx.alt Rx.eps (Rx.cat r (rxAtMost r m))

/-- `.` (any character except a newline; no `re.DOTALL` in the source). -/
def rxDot : Rx := Rx.cls (fun c => c ≠ '\n')

/-- `.*`. -/
def rxDotStar : Rx := Rx.star rxDot

/-- Python `\s` on the ASCII range. -/
def isSpaceChar (c : Char) : Bool :=
  c = ' ' ∨ c = '\t' ∨ c = '\n' ∨ c = '\r' ∨ c = Char.ofNat 11 ∨ c = Char.ofNat 12

/-- Python `\w` on the ASCII range. -/
def isWordChar (c : Char) : Bool := c.isAlphanum ∨ c = '_'

/-- Hex-digit class `[0-9A-Fa-f]`. -/
def isHexChar (c : Char) : Bool :=
  c.isDigit ∨ ('a' ≤ c ∧ c ≤ 'f') ∨ ('A' ≤ c ∧ c ≤ 'F')

/-- The apostrophe character (written by code point to keep sources plain). -/
def quoteChar : Char := Char.ofNat 39

/-- Class `[^\s<>"\']` of the URL patterns. -/
def urlBodyChar : Rx :=
  Rx.cls (fun c => ¬(isSpaceChar c ∨ c = '<' ∨ c = '>' ∨ c = '"' ∨ c = quoteChar))

/-- Class `[^<>:"|?*\n\r]` of the path / registry patterns. -/
def pathBodyChar : Rx :=
  Rx.cls (fun c => ¬(c = '<' ∨ c = '>' ∨ c = ':' ∨ c = '"' ∨ c = '|' ∨ c = '?' ∨
    c = '*' ∨ c = '\n' ∨ c = '\r'))

/-- Letter class `[A-Za-z]` (= `[A-Z]` or `[a-z]` under `re.IGNORECASE`). -/
def rxAlphaChar : Rx := Rx.cls Char.isAlpha

/-- Class `[a-zA-Z0-9.-]`. -/
def rxHostChar : Rx := Rx.cls (fun c => c.isAlphanum ∨ c = '.' ∨ c = '-')

/-- The `patterns` dict of `StringExtractor._categorize_strings`, in
insertion order, each entry the ordered regex list of that category. -/
def categoryPatterns : List (String × List Rx) :=
  [("urls",
    [rxSeq [rxIStr "http", rxOpt (rxic 's'), rxIStr "://", rxPlus urlBodyChar],
     rxSeq [rxIStr "ftp://", rxPlus urlBodyChar],
     rxSeq [rxPlus rxHostChar, rxc '.',
       rxAlts [rxIStr "com", rxIStr "net", rxIStr "org", rxIStr "io", rxIStr "gov",
         rxIStr "edu", rxIStr "mil", rxSeq [rxIStr "co", rxc '.', rxPow rxAlphaChar 2]]]]),
   ("file_paths",
    [rxSeq [rxAlphaChar, rxc ':', rxc '\\', rxPlus pathBodyChar],
     rxSeq [rxc '\\', rxc '\\', rxPlus (Rx.cls (fun c => c ≠ '\\')), rxc '\\',
       rxPlus pathBodyChar],
     rxSeq [rxc '/', rxPlus (Rx.cls (fun c => c.isAlphanum ∨ c = '/' ∨ c = '_' ∨
       c = '.' ∨ c = '-')), rxc '.', rxPlus (Rx.cls Char.isAlphanum)],
     rxSeq [rxc '%', rxPlus rxAlphaChar, rxc '%', rxc '\\', rxPlus pathBodyChar]]),
   ("registry_keys",
    [rxSeq [rxIStr "HKEY_", rxPlus (Rx.cls (fun c => c.isAlpha ∨ c = '_')), rxc '\\',
       rxPlus pathBodyChar],
     rxSeq [rxIStr "SOFTWARE", rxc '\\', rxPlus pathBodyChar],
     rxSeq [rxIStr "SYSTEM", rxc '\\', rxPlus pathBodyChar]]),
   ("dll_names",
    [rxSeq [rxPlus (Rx.cls isWordChar), rxc '.', rxIStr "dll"],
     rxSeq [rxPlus (Rx.cls isWordChar), rxc '.', rxIStr "exe"],
     rxSeq [rxPlus (Rx.cls isWordChar), rxc '.', rxIStr "sys"],
     rxSeq [rxPlus (Rx.cls isWordChar), rxc '.', rxIStr "ocx"]]),
   ("error_messages",
    [rxAlts [rxSeq [rxDotStar, rxIStr "error", rxDotStar],
       rxSeq [rxDotStar, rxIStr "failed", rxDotStar],
       rxSeq [rxDotStar, rxIStr "exception", rxDotStar]],
     rxAlts [rxSeq [rxDotStar, rxIStr "access denied", rxDotStar],
       rxSeq [rxDotStar, rxIStr "permission", rxDotStar]],
     rxAlts [rxSeq [rxDotStar, rxIStr "not found", rxDotStar],
       rxSeq [rxDotStar, rxIStr "missing", rxDotStar],
       rxSeq [rxDotStar, rxIStr "invalid", rxDotStar]]]),
   ("commands",
    [rxAlts [rxSeq [rxIStr "powershell", rxDotStar], rxSeq [rxIStr "cmd", rxDotStar],
       rxSeq [rxIStr "wmic", rxDotStar]],
     rxSeq [rxIStr "net", rxPlus (Rx.cls isSpaceChar),
       rxAlts [rxIStr "use", rxIStr "user", rxIStr "share", rxIStr "view"]],
     rxSeq [rxIStr "reg", rxPlus (Rx.cls isSpaceChar),
       rxAlts [rxIStr "add", rxIStr "delete", rxIStr "query"]],
     rxAlts [rxSeq [rxIStr "schtasks", rxDotStar],
       rxSeq [rxIStr "at", rxPlus (Rx.cls isSpaceChar), rxPlus (Rx.cls Char.isDigit)]]]),
   ("credentials",
    [rxSeq [rxIStr "password", rxPlus (Rx.cls (fun c => c = ':' ∨ isSpaceChar c ∨ c = '=')),
       rxPlus (Rx.cls (fun c => ¬isSpaceChar c))],
     rxSeq [rxIStr "pwd", rxPlus (Rx.cls (fun c => c = ':' ∨ isSpaceChar c ∨ c = '=')),
       rxPlus (Rx.cls (fun c => ¬isSpaceChar c))],
     rxSeq [rxIStr "user", rxOpt (rxIStr "name"),
       rxPlus (Rx.cls (fun c => c = ':' ∨ isSpaceChar c ∨ c = '=')),
       rxPlus (Rx.cls (fun c => ¬isSpaceChar c))],
     rxSeq [rxIStr "api", rxOpt (Rx.cls (fun c => c = '_' ∨ c = '-')), rxIStr "key",
       rxPlus (Rx.cls (fun c => c = ':' ∨ isSpaceChar c ∨ c = '=')),
       rxPlus (Rx.cls (fun c => ¬isSpaceChar c))]])]

/-! ## `strings_plugin.py`: `_calculate_entropy` and `_is_interesting` -/

/-- The character counts of a string: `collections.Counter(string).values()`
(one entry per distinct character; the multiset of counts is what entropy
and the products below consume). -/
def strCounts (s : String) : List Nat :=
  s.toList.dedup.map (fun c => s.toList.count c)

/-- `StringExtractor._calculate_entropy`: the Shannon entropy
`-Σ p·log2 p` over the string's character distribution (the source computes
this in floating point; it is embedded here with exact reals). -/
noncomputable def shannonEntropy (s : String) : ℝ :=
  if s.length = 0 then 0
  else -(((strCounts s).map (fun k : ℕ =>
    ((k : ℝ) / (s.length : ℝ)) * Real.logb 2 ((k : ℝ) / (s.length : ℝ)))).sum)

/-- Decidable form of the source's `entropy > 4.5` test: with counts `kᵢ`
summing to the length `L`, the entropy exceeds 9/2 iff
`2^(9L) · Π kᵢ^(2kᵢ) < L^(2L)` (an exact integer restatement; the theorem
`entropyGt45_iff` proves the equivalence with `shannonEntropy`). -/
def entropyGt45 (s : String) : Bool :=
  2 ^ (9 * s.length) * ((strCounts s).map (fun k => k ^ (2 * k))).prod <
    s.length ^ (2 * s.length)

/-- `re.match(r"^[A-Za-z0-9+/]{20,}={0,2}$", string)` of `_is_interesting`. -/
def base64Rx : Rx :=
  Rx.cat (rxAtLeast (Rx.cls (fun c => c.isAlphanum ∨ c = '+' ∨ c = '/')) 20)
    (rxAtMost (rxc '=') 2)

/-- `re.match(r"^[0-9A-Fa-f]{16,}$", string)` of `_is_interesting`. -/
def hexRx : Rx := rxAtLeast (Rx.cls isHexChar) 16

/-- `re.search(r"[A-Za-z0-9]{32,}", string)` of `_is_interesting`. -/
def tokenRx : Rx := rxAtLeast (Rx.cls Char.isAlphanum) 32

/-- `StringExtractor._is_interesting`: high entropy, base64 shape, long hex
run, or a 32+-character alphanumeric run. -/
def isInteresting (s : String) : Bool :=
  entropyGt45 s || rxMatch base64Rx s.toList || rxMatch hexRx s.toList ||
    reSearch tokenRx s

/-! ## `strings_plugin.py`: `_categorize_strings` -/

/-- The `categories` dict of `_categorize_strings`, in insertion order. -/
def categoriesInit : List (String × List String) :=
  [("urls", []), ("file_paths", []), ("registry_keys", []), ("dll_names", []),
   ("error_messages", []), ("network_related", []), ("security_related", []),
   ("system_info", []), ("commands", []), ("credentials", []), ("interesting", [])]

/-- `categories[category].append(string)`. -/
def dictAppend (m : List (String × List String)) (k : String) (s : String) :
    List (String × List String) :=
  m.map (fun kv => if kv.1 = k then (kv.1, kv.2 ++ [s]) else kv)

/-- The main loop of `_categorize_strings`: skip short or already-processed
strings; otherwise append the string to the first category (in `patterns`
dict order) whose pattern list has a match (first matching pattern wins),
or, when nothing matches, to `interesting` when it is longer than 10
characters and `_is_interesting` holds. -/
def categorizeLoop : List String → List String → List (String × List String) →
    List (String × List String)
  | [], _, cats => cats
  | s :: rest, processed, cats =>
      if processed.contains s ∨ s.length < 4 then categorizeLoop rest processed cats
      else
        let processed' := s :: processed
        match categoryPatterns.find? (fun cp => cp.2.any (fun r => reSearch r s)) with
        | some cp => categorizeLoop rest processed' (dictAppend cats cp.1 s)
        | none =>
            if 10 < s.length ∧ isInteresting s then
              categorizeLoop rest processed' (dictAppend cats "interesting" s)
            else categorizeLoop rest processed' cats

/-- `StringExtractor._categorize_strings`: the loop above followed by the
per-category cap of 200 entries. -/
def categorizeStrings (strings : List String) : List (String × List String) :=
  (categorizeLoop strings [] categoriesInit).map (fun kv => (kv.1, kv.2.take 200))

/-- The `interesting` bucket of a categorization result. -/
def interestingOf (cats : List (String × List String)) : List String :=
  (dictGet cats "interesting").getD []

/-- Whether some configured category pattern matches the string (the
`categorized` flag of the loop). -/
def matchesSomeCategory (s : String) : Bool :=
  categoryPatterns.any (fun cp => cp.2.any (fun r => reSearch r s))

/-! ## Theorems -/

/-- C3: `DumpParser.__init__` parses the configured maximum-size string with
`_parse_size`, whose suffix table is probed in dict order with `B` first, so
the default `2GB` (and every other KB/MB/GB/TB-suffixed string) reaches
`float("2G")`, which raises `ValueError`.  Setup therefore fails for every
file size, including sizes within the 2 GiB cap — the size check can never
pass, contradicting the documented boundary contract. -/
theorem c3_max_file_size_check_always_fails (fileSize : Nat) :
    checkFileSize fileSize "2GB" =
      Except.error "could not convert string to float: 2G" := by
  have h : parseSize "2GB" = Except.error "could not convert string to float: 2G" := by rfl
  simp [checkFileSize, h]

/-- The 32-byte minidump header of the spec's Scenario 2: `b"MDMP"` followed
by little-endian version=1, stream_count=3, stream_rva=0, checksum=0,
timestamp=1700000000, flags=0.  The named fields cover 28 bytes; the final
four zero bytes pad the header to the 32 bytes the scenario reads (the high
half of the 8-byte flags field of the real `MINIDUMP_HEADER`). -/
def c2HeaderBytes : List Nat :=
  bMDMP ++ [1, 0, 0, 0] ++ [3, 0, 0, 0] ++ [0, 0, 0, 0] ++ [0, 0, 0, 0] ++
    [0, 241, 83, 101] ++ [0, 0, 0, 0] ++ [0, 0, 0, 0]

/-- C2: on the Scenario-2 input the format is detected as `minidump`, but
`_parse_minidump_header` reads 32 header bytes and unpacks them with struct
format `<4sIIIIII`, which describes only 28 bytes; `struct.unpack` therefore
raises on every well-formed minidump and `parse` fails instead of producing
`version`/`stream_count`/`timestamp` metadata. -/
theorem c2_minidump_header_struct_error :
    detectFormat c2HeaderBytes = some "minidump" ∧
      c2HeaderBytes.length = 32 ∧
      parserParse c2HeaderBytes "crash.dmp" false =
        Except.error "unpack requires a buffer of 28 bytes" := by
  refine ⟨by decide, by decide, by decide⟩

/-- C10: `DumpData.read` raises `RuntimeError("No data handle available")`
for every offset and size when both the mmap handle and the file handle are
absent, as on a null/partial handle. -/
theorem c10_read_no_handles_raises (d : DumpData) (offset : Nat) (size : Int)
    (hm : d.hasMmap = false) (hf : d.hasFile = false) :
    d.read offset size = Except.error "No data handle available" := by
  simp [DumpData.read, hm, hf]

/-- C10 witness: the theorem applied to a concrete empty handle. -/
theorem c10_read_no_handles_raises_witness :
    DumpData.read ⟨[7, 7, 7], false, false⟩ 1 2 =
      Except.error "No data handle available" :=
  c10_read_no_handles_raises ⟨[7, 7, 7], false, false⟩ 1 2 rfl rfl

/-- C5: with at least one handle open and a size that is `-1` or
non-negative, `DumpData.read` never raises and returns exactly the available
bytes starting at `offset` — all of them for `size = -1`, at most `size` of
them otherwise, which is short or empty when `offset + size` exceeds the
file length or `offset` is at or past end of file. -/
theorem c5_read_in_range (d : DumpData) (offset : Nat) (size : Int)
    (hopen : d.hasMmap = true ∨ d.hasFile = true) (hsize : size = -1 ∨ 0 ≤ size) :
    d.read offset size =
      Except.ok ((d.contents.drop offset).take
        (if size = -1 then d.contents.length else size.toNat)) := by
  rcases hsize with hs | hs
  · subst hs
    rcases hopen with hm | hf
    · simp [DumpData.read, hm, List.take_of_length_le,
        (List.length_drop _ _ ▸ Nat.sub_le _ _ : (d.contents.drop offset).length ≤ d.contents.length)]
    · by_cases hm : d.hasMmap
      · simp [DumpData.read, hm, List.take_of_length_le,
          (List.length_drop _ _ ▸ Nat.sub_le _ _ : (d.contents.drop offset).length ≤ d.contents.length)]
      · simp [DumpData.read, hm, hf, pyFileRead]
  · have hne : size ≠ -1 := by omega
    rcases hopen with hm | hf
    · have key : pySlice d.contents (offset : Int) ((offset : Int) + size) =
          (d.contents.drop offset).take size.toNat := by
        unfold pySlice pyIdx
        have h1 : ¬((offset : Int) < 0) := by omega
        have h2 : ¬((offset : Int) + size < 0) := by omega
        have h3 : ((offset : Int) + size).toNat = offset + size.toNat := by omega
        have h4 : ((offset : Int)).toNat = offset := by omega
        simp only [h1, h2, if_neg, ite_false, h3, h4]
        rw [List.drop_take]
        by_cases hc : offset ≤ d.contents.length
        · have : min offset d.contents.length = offset := by omega
          rw [this, List.take_eq_take]
          simp [List.length_drop]
          omega
        · have hlen : d.contents.length ≤ offset := by omega
          have : min offset d.contents.length = d.contents.length := by omega
          rw [this]
          rw [List.drop_eq_nil_of_le, List.drop_eq_nil_of_le]
          · simp
          · exact hlen
          · simp
      simp [DumpData.read, hm, hne, key]
    · by_cases hm : d.hasMmap
      · have key : pySlice d.contents (offset : Int) ((offset : Int) + size) =
            (d.contents.drop offset).take size.toNat := by
          unfold pySlice pyIdx
          have h1 : ¬((offset : Int) < 0) := by omega
          have h2 : ¬((offset : Int) + size < 0) := by omega
          have h3 : ((offset : Int) + size).toNat = offset + size.toNat := by omega
          have h4 : ((offset : Int)).toNat = offset := by omega
          simp only [h1, h2, if_neg, ite_false, h3, h4]
          rw [List.drop_take]
          by_cases hc : offset ≤ d.contents.length
          · have : min offset d.contents.length = offset := by omega
            rw [this, List.take_eq_take]
            simp [List.length_drop]
            omega
          · have hlen : d.contents.length ≤ offset := by omega
            have : min offset d.contents.length = d.contents.length := by omega
            rw [this]
            rw [List.drop_eq_nil_of_le, List.drop_eq_nil_of_le]
            · simp
            · exact hlen
            · simp
        simp [DumpData.read, hm, hne, key]
      · have hpos : ¬(size < 0) := by omega
        simp [DumpData.read, hm, hf, pyFileRead, hpos, hne]

/-- C5 witness: a concrete mmap-backed handle read past end of file returns
the short available result without raising. -/
theorem c5_read_in_range_witness :
    DumpData.read ⟨[10, 20, 30, 40], true, false⟩ 2 100 =
      Except.ok [30, 40] := by
  have h := c5_read_in_range ⟨[10, 20, 30, 40], true, false⟩ 2 100
    (Or.inl rfl) (Or.inr (by omega))
  simpa using h

/-- A truncated minidump: the `MDMP` signature plus four bytes, 8 bytes in
total, so the 32-byte header read comes up short. -/
def c4Input : List Nat := bMDMP ++ [0, 0, 0, 0]

/-- C4 counterexample: a dump whose signature selects `minidump` but whose
header is too short makes `parse` raise (`ValueError("Invalid minidump
header")`) outside recovery mode — the run fails rather than falling back
to degraded metadata, so structural header errors are not recoverable
outside recovery mode. -/
theorem c4_counterexample :
    detectFormat c4Input = some "minidump" ∧
      parserParse c4Input "trunc.dmp" false =
        Except.error "Invalid minidump header" :=
  ⟨by decide, by decide⟩

/-- C4 amended: for a dump detected as `minidump` with fewer than 32 bytes,
the metadata-parse failure propagates and the run fails when
`recovery_mode` is off; only with `recovery_mode` on does the run continue,
and then the format stays the detected `minidump` (it does not fall back to
`unknown`) with only the basic `file_size`/`file_name` metadata added. -/
theorem c4_structural_error_recovery (data : List Nat) (name : String)
    (hdet : detectFormat (pySlice data 0 4096) = some "minidump")
    (hshort : data.length < 32) :
    parserParse data name false = Except.error "Invalid minidump header" ∧
      parserParse data name true =
        Except.ok [("format", MetaVal.s "minidump"),
          ("file_size", MetaVal.n data.length), ("file_name", MetaVal.s name)] := by
  have hlen : (pySlice data 0 32).length < 32 := by
    simp [pySlice, pyIdx]
    omega
  have hmeta : parseMetadata data "minidump" [("format", MetaVal.s "minidump")] =
      Except.error "Invalid minidump header" := by
    simp [parseMetadata, parseMinidumpHeader, if_pos hlen]
  constructor
  · simp only [parserParse, hdet]
    simp [dictSet, hmeta]
  · simp only [parserParse, hdet]
    simp [dictSet, hmeta]

/-- C4 witness: the amended theorem applied to the concrete 8-byte
truncated minidump. -/
theorem c4_structural_error_recovery_witness :
    detectFormat (pySlice c4Input 0 4096) = some "minidump" ∧
      c4Input.length < 32 ∧
      parserParse c4Input "trunc.dmp" false = Except.error "Invalid minidump header" ∧
      parserParse c4Input "trunc.dmp" true =
        Except.ok [("format", MetaVal.s "minidump"),
          ("file_size", MetaVal.n c4Input.length), ("file_name", MetaVal.s "trunc.dmp")] :=
  ⟨by decide, by decide,
    (c4_structural_error_recovery c4Input "trunc.dmp" (by decide) (by decide)).1,
    (c4_structural_error_recovery c4Input "trunc.dmp" (by decide) (by decide)).2⟩

/-- C8: `_classify_ip` is total and mutually exclusive on well-formed
dotted quads — for every four octets in 0..255 the returned label occurs
exactly once in the six-label set — and the Scenario-3 inputs classify as
`private_class_c` and `public`. -/
theorem c8_ip_classification_total_exclusive :
    (∀ o0 o1 o2 o3 : Nat, o0 ≤ 255 → o1 ≤ 255 → o2 ≤ 255 → o3 ≤ 255 →
      ipLabels.count (classifyIp [o0, o1, o2, o3]) = 1) ∧
      classifyIpStr "192.168.1.5" = "private_class_c" ∧
      classifyIpStr "8.8.8.8" = "public" := by
  refine ⟨?_, by decide, by decide⟩
  intro o0 o1 o2 o3 _ _ _ _
  have e0 : ([o0, o1, o2, o3].getD 0 0) = o0 := rfl
  have e1 : ([o0, o1, o2, o3].getD 1 0) = o1 := rfl
  simp only [classifyIp, e0, e1]
  split_ifs <;> decide

/-- C8 witness: the totality part applied to concrete octets. -/
theorem c8_ip_classification_total_exclusive_witness :
    ipLabels.count (classifyIp [203, 0, 113, 9]) = 1 :=
  c8_ip_classification_total_exclusive.1 203 0 113 9 (by decide) (by decide)
    (by decide) (by decide)

/-- The head of a `dropWhile` residue fails the predicate. -/
theorem head?_dropWhile_not (p : Nat → Bool) :
    ∀ (l : List Nat) (x : Nat), (l.dropWhile p).head? = some x → p x = false := by
  intro l
  induction l with
  | nil => intro x h; simp at h
  | cons b rest ih =>
      intro x h
      by_cases hb : p b
      · rw [List.dropWhile_cons_of_pos hb] at h
        exact ih x h
      · rw [List.dropWhile_cons_of_neg hb] at h
        simp at h
        subst h
        simpa using hb

/-- Unfolding `asciiRunsGo` with a non-empty accumulator: the pending run
absorbs the printable prefix and is emitted at the first break. -/
theorem asciiRunsGo_ne_nil (l : List Nat) :
    ∀ acc : List Nat, acc ≠ [] →
      asciiRunsGo acc l =
        (acc.reverse ++ l.takeWhile isPrintableByte) ::
          asciiRunsGo [] (l.dropWhile isPrintableByte) := by
  induction l with
  | nil => intro acc hacc; simp [asciiRunsGo, hacc]
  | cons b rest ih =>
      intro acc hacc
      by_cases hb : isPrintableByte b
      · rw [List.takeWhile_cons_of_pos hb, List.dropWhile_cons_of_pos hb]
        have h1 : asciiRunsGo acc (b :: rest) = asciiRunsGo (b :: acc) rest := by
          simp [asciiRunsGo, hb]
        rw [h1, ih (b :: acc) (by simp)]
        simp
      · rw [List.takeWhile_cons_of_neg hb, List.dropWhile_cons_of_neg hb]
        have h1 : asciiRunsGo acc (b :: rest) = acc.reverse :: asciiRunsGo [] rest := by
          simp [asciiRunsGo, hb, hacc]
        have h2 : asciiRunsGo [] (b :: rest) = asciiRunsGo [] rest := by
          simp [asciiRunsGo, hb]
        rw [h1, h2]
        simp

/-- `asciiRuns` on a non-printable head skips it. -/
theorem asciiRuns_cons_neg (b : Nat) (rest : List Nat)
    (hb : isPrintableByte b = false) : asciiRuns (b :: rest) = asciiRuns rest := by
  simp [asciiRuns, asciiRunsGo, hb]

/-- `asciiRuns` on a printable head emits the whole maximal run it starts. -/
theorem asciiRuns_cons_pos (b : Nat) (rest : List Nat)
    (hb : isPrintableByte b = true) :
    asciiRuns (b :: rest) =
      (b :: rest.takeWhile isPrintableByte) ::
        asciiRuns (rest.dropWhile isPrintableByte) := by
  have h1 : asciiRuns (b :: rest) = asciiRunsGo [b] rest := by
    simp [asciiRuns, asciiRunsGo, hb]
  rw [h1, asciiRunsGo_ne_nil rest [b] (by simp)]
  simp [asciiRuns]

/-- Every element of `asciiRuns data` is a non-empty all-printable run that
occurs in `data` flanked by a non-printable byte (or a buffer edge) on both
sides. -/
theorem asciiRuns_spec :
    ∀ (n : Nat) (l : List Nat), l.length ≤ n → ∀ s ∈ asciiRuns l,
      s ≠ [] ∧ s.all isPrintableByte = true ∧
      ∃ pre post, l = pre ++ s ++ post ∧
        (∀ x, pre.getLast? = some x → isPrintableByte x = false) ∧
        (∀ x, post.head? = some x → isPrintableByte x = false) := by
  intro n
  induction n with
  | zero =>
      intro l hl s hs
      have : l = [] := List.length_eq_zero.mp (Nat.le_zero.mp hl)
      subst this
      simp [asciiRuns, asciiRunsGo] at hs
  | succ n ih =>
      intro l hl s hs
      match l with
      | [] => simp [asciiRuns, asciiRunsGo] at hs
      | b :: rest =>
          by_cases hb : isPrintableByte b
          · rw [asciiRuns_cons_pos b rest hb] at hs
            rcases List.mem_cons.mp hs with hrun | hmem
            · subst hrun
              refine ⟨by simp, ?_, [], rest.dropWhile isPrintableByte, ?_, ?_, ?_⟩
              · simp only [List.all_cons, hb, Bool.true_and]
                rw [List.all_eq_true]
                intro x hx
                exact List.mem_takeWhile_imp hx
              · simp [List.takeWhile_append_dropWhile]
              · intro x hx; simp at hx
              · intro x hx; exact head?_dropWhile_not isPrintableByte rest x hx
            · have hlen : (rest.dropWhile isPrintableByte).length ≤ n := by
                have h1 : (rest.dropWhile isPrintableByte).length ≤ rest.length :=
                  (List.dropWhile_suffix isPrintableByte).length_le
                simp at hl
                omega
              obtain ⟨hne, hall, pre, post, heq, hpre, hpost⟩ :=
                ih (rest.dropWhile isPrintableByte) hlen s hmem
              have hprene : pre ≠ [] := by
                intro hprenil
                subst hprenil
                simp only [List.nil_append] at heq
                obtain ⟨x, s', rfl⟩ := List.exists_cons_of_ne_nil hne
                have hx : ((rest.dropWhile isPrintableByte).head? = some x) := by
                  rw [heq]; simp
                have hxf := head?_dropWhile_not isPrintableByte rest x hx
                have hxt : isPrintableByte x = true := by
                  rw [List.all_eq_true] at hall
                  exact hall x (by simp)
                rw [hxt] at hxf
                simp at hxf
              refine ⟨hne, hall, b :: rest.takeWhile isPrintableByte ++ pre, post,
                ?_, ?_, hpost⟩
              · have h2 : (b :: rest.takeWhile isPrintableByte ++ pre) ++ s ++ post =
                    b :: (rest.takeWhile isPrintableByte ++ (pre ++ s ++ post)) := by
                  simp
                rw [h2, ← heq, List.takeWhile_append_dropWhile]
              · intro x hx
                rw [show (b :: rest.takeWhile isPrintableByte ++ pre) =
                    (b :: rest.takeWhile isPrintableByte) ++ pre by simp] at hx
                rw [List.getLast?_append_of_ne_nil _ hprene] at hx
                exact hpre x hx
          · rw [asciiRuns_cons_neg b rest (by simpa using hb)] at hs
            have hlen : rest.length ≤ n := by simp at hl; omega
            obtain ⟨hne, hall, pre, post, heq, hpre, hpost⟩ := ih rest hlen s hs
            refine ⟨hne, hall, b :: pre, post, by rw [heq]; simp, ?_, hpost⟩
            intro x hx
            cases pre with
            | nil =>
                simp at hx
                subst hx
                simpa using hb
            | cons p pre' =>
                rw [List.getLast?_cons_cons] at hx
                exact hpre x hx

/-- C9: every output of the ASCII pass with `min_length ≥ 1` is a contiguous
run of printable bytes (`[0x20, 0x7E]`) of length ≥ `min_length` occurring
in the buffer, and is maximal: the byte immediately before and after the
occurrence (when one exists) is non-printable, so no output is a strict
substring of a longer printable run at the same position. -/
theorem c9_ascii_scan_maximality (data : List Nat) (minLength : Nat)
    (_hmin : 1 ≤ minLength) :
    ∀ s ∈ extractAsciiStrings data minLength,
      minLength ≤ s.length ∧ s.all isPrintableByte = true ∧
      ∃ pre post, data = pre ++ s ++ post ∧
        (∀ x, pre.getLast? = some x → isPrintableByte x = false) ∧
        (∀ x, post.head? = some x → isPrintableByte x = false) := by
  intro s hs
  rw [extractAsciiStrings, List.mem_filter] at hs
  obtain ⟨hmem, hlen⟩ := hs
  have hspec := asciiRuns_spec data.length data (le_refl _) s hmem
  exact ⟨by simpa using hlen, hspec.2.1, hspec.2.2⟩

/-- C9 witness: the theorem applied to a concrete buffer; the printable run
`HI!` is returned and satisfies the full property. -/
theorem c9_ascii_scan_maximality_witness :
    [72, 73, 33] ∈ extractAsciiStrings [0, 72, 73, 33, 7, 65, 66] 2 ∧
      (2 ≤ ([72, 73, 33] : List Nat).length ∧
        ([72, 73, 33] : List Nat).all isPrintableByte = true ∧
        ∃ pre post, [0, 72, 73, 33, 7, 65, 66] = pre ++ [72, 73, 33] ++ post ∧
          (∀ x, pre.getLast? = some x → isPrintableByte x = false) ∧
          (∀ x, post.head? = some x → isPrintableByte x = false)) :=
  ⟨by decide,
    c9_ascii_scan_maximality [0, 72, 73, 33, 7, 65, 66] 2 (by decide) [72, 73, 33]
      (by decide)⟩

/-- `dictSet` on an absent key appends. -/
theorem dictSet_absent {V : Type} (m : List (String × V)) (k : String) (v : V)
    (h : ∀ kv ∈ m, kv.1 ≠ k) : dictSet m k v = m ++ [(k, v)] := by
  have hany : m.any (fun kv => kv.1 = k) = false := by
    rw [List.any_eq_false]
    intro kv hkv
    simpa using h kv hkv
  simp [dictSet, hany]

/-- With pairwise-distinct plugin names, the `run_analysis` loop produces
exactly one entry per plugin, in execution order. -/
theorem runFold_eq {D : Type} :
    ∀ (ps : List (Plugin D)) (acc : List (String × PluginResult D)),
      (∀ p ∈ ps, ∀ kv ∈ acc, kv.1 ≠ p.name) → (ps.map Plugin.name).Nodup →
      ps.foldl (fun results p => dictSet results p.name (pluginOutcome p)) acc =
        acc ++ ps.map (fun p => (p.name, pluginOutcome p)) := by
  intro ps
  induction ps with
  | nil => intro acc _ _; simp
  | cons p rest ih =>
      intro acc hdisj hnodup
      have hset : dictSet acc p.name (pluginOutcome p) = acc ++ [(p.name, pluginOutcome p)] :=
        dictSet_absent acc p.name (pluginOutcome p)
          (fun kv hkv => hdisj p (by simp) kv hkv)
      have hnodup' : (rest.map Plugin.name).Nodup := by
        simp only [List.map_cons, List.nodup_cons] at hnodup
        exact hnodup.2
      have hnotin : p.name ∉ rest.map Plugin.name := by
        simp only [List.map_cons, List.nodup_cons] at hnodup
        exact hnodup.1
      have hdisj' : ∀ q ∈ rest, ∀ kv ∈ acc ++ [(p.name, pluginOutcome p)], kv.1 ≠ q.name := by
        intro q hq kv hkv
        rcases List.mem_append.mp hkv with h1 | h2
        · exact hdisj q (by simp [hq]) kv h1
        · rw [List.mem_singleton] at h2
          subst h2
          intro hcontra
          refine hnotin ?_
          rw [show p.name = q.name from hcontra]
          exact List.mem_map_of_mem Plugin.name hq
      calc (p :: rest).foldl (fun results q => dictSet results q.name (pluginOutcome q)) acc
          = rest.foldl (fun results q => dictSet results q.name (pluginOutcome q))
              (acc ++ [(p.name, pluginOutcome p)]) := by rw [List.foldl_cons, hset]
        _ = (acc ++ [(p.name, pluginOutcome p)]) ++
              rest.map (fun q => (q.name, pluginOutcome q)) := ih _ hdisj' hnodup'
        _ = acc ++ (p :: rest).map (fun q => (q.name, pluginOutcome q)) := by simp

/-- `runAnalysisList` under distinct names is the per-plugin outcome map. -/
theorem runAnalysisList_eq {D : Type} (ps : List (Plugin D))
    (hnodup : (ps.map Plugin.name).Nodup) :
    runAnalysisList ps = ps.map (fun p => (p.name, pluginOutcome p)) := by
  have h := runFold_eq ps [] (by intro p _ kv hkv; simp at hkv) hnodup
  simpa [runAnalysisList] using h

/-- Looking up a member plugin's name in the outcome map yields its own
outcome when names are pairwise distinct. -/
theorem dictGet_outcome_map {D : Type} :
    ∀ (ps : List (Plugin D)) (p : Plugin D), (ps.map Plugin.name).Nodup → p ∈ ps →
      dictGet (ps.map (fun q => (q.name, pluginOutcome q))) p.name =
        some (pluginOutcome p) := by
  intro ps
  induction ps with
  | nil => intro p _ hmem; simp at hmem
  | cons q rest ih =>
      intro p hnodup hmem
      rcases List.mem_cons.mp hmem with rfl | hmem'
      · simp [dictGet]
      · have hnotin : q.name ∉ rest.map Plugin.name := by
          simp only [List.map_cons, List.nodup_cons] at hnodup
          exact hnodup.1
        have hne : q.name ≠ p.name := by
          intro hcontra
          exact hnotin (hcontra ▸ List.mem_map_of_mem Plugin.name hmem')
        have hnodup' : (rest.map Plugin.name).Nodup := by
          simp only [List.map_cons, List.nodup_cons] at hnodup
          exact hnodup.2
        have := ih p hnodup' hmem'
        simp only [List.map_cons, dictGet, List.find?]
        have : (decide (q.name = p.name)) = false := by simpa using hne
        rw [this]
        exact ih p hnodup' hmem'

/-- C1: in a `run_analysis` pass whose module names are pairwise distinct,
a module whose `analyze` raises is recorded against itself only —
`success=false` with the exception message — while every other module's
entry is present and identical to the run in which the failing module's
`analyze` returns normally, and is `success=true` with its own data when it
validates and returns normally. -/
theorem c1_plugin_failure_isolation {D : Type} (pre post : List (Plugin D))
    (nm : String) (prio : Int) (e : String) (d : D)
    (hnodup : ((pre ++ (⟨nm, prio, true, Except.error e⟩ : Plugin D) :: post).map
      Plugin.name).Nodup) :
    dictGet (runAnalysisList (pre ++ (⟨nm, prio, true, Except.error e⟩ : Plugin D) :: post)) nm =
      some ⟨none, false, some e⟩ ∧
    (∀ B ∈ pre ++ post,
      dictGet (runAnalysisList (pre ++ (⟨nm, prio, true, Except.error e⟩ : Plugin D) :: post)) B.name =
        dictGet (runAnalysisList (pre ++ (⟨nm, prio, true, Except.ok d⟩ : Plugin D) :: post)) B.name) ∧
    (∀ B ∈ pre ++ post, B.validateData = true → ∀ dB, B.analyzeResult = Except.ok dB →
      dictGet (runAnalysisList (pre ++ (⟨nm, prio, true, Except.error e⟩ : Plugin D) :: post)) B.name =
        some ⟨some dB, true, none⟩) := by
  have hnames2 : ((pre ++ (⟨nm, prio, true, Except.ok d⟩ : Plugin D) :: post).map
      Plugin.name) = ((pre ++ (⟨nm, prio, true, Except.error e⟩ : Plugin D) :: post).map
      Plugin.name) := by
    simp
  have hnodup2 : ((pre ++ (⟨nm, prio, true, Except.ok d⟩ : Plugin D) :: post).map
      Plugin.name).Nodup := by rw [hnames2]; exact hnodup
  have hrun1 := runAnalysisList_eq _ hnodup
  have hrun2 := runAnalysisList_eq _ hnodup2
  refine ⟨?_, ?_, ?_⟩
  · rw [hrun1]
    have hmem : (⟨nm, prio, true, Except.error e⟩ : Plugin D) ∈
        pre ++ (⟨nm, prio, true, Except.error e⟩ : Plugin D) :: post := by simp
    have h := dictGet_outcome_map _ (⟨nm, prio, true, Except.error e⟩ : Plugin D) hnodup hmem
    rw [show (⟨nm, prio, true, Except.error e⟩ : Plugin D).name = nm from rfl] at h
    rw [h]
    rfl
  · intro B hB
    rw [hrun1, hrun2]
    have hB1 : B ∈ pre ++ (⟨nm, prio, true, Except.error e⟩ : Plugin D) :: post := by
      rcases List.mem_append.mp hB with h | h
      · exact List.mem_append.mpr (Or.inl h)
      · exact List.mem_append.mpr (Or.inr (List.mem_cons_of_mem _ h))
    have hB2 : B ∈ pre ++ (⟨nm, prio, true, Except.ok d⟩ : Plugin D) :: post := by
      rcases List.mem_append.mp hB with h | h
      · exact List.mem_append.mpr (Or.inl h)
      · exact List.mem_append.mpr (Or.inr (List.mem_cons_of_mem _ h))
    rw [dictGet_outcome_map _ B hnodup hB1, dictGet_outcome_map _ B hnodup2 hB2]
  · intro B hB hval dB hok
    rw [hrun1]
    have hB1 : B ∈ pre ++ (⟨nm, prio, true, Except.error e⟩ : Plugin D) :: post := by
      rcases List.mem_append.mp hB with h | h
      · exact List.mem_append.mpr (Or.inl h)
      · exact List.mem_append.mpr (Or.inr (List.mem_cons_of_mem _ h))
    rw [dictGet_outcome_map _ B hnodup hB1]
    simp [pluginOutcome, hval, hok]

/-- C1 witness: a three-plugin run in which the middle plugin raises; the
failing plugin records `success=false` with its message, and a sibling's
entry equals its entry in the non-raising run and is `success=true`. -/
theorem c1_plugin_failure_isolation_witness :
    dictGet (runAnalysisList [(⟨"s", 3, true, Except.ok 1⟩ : Plugin Nat),
        ⟨"f", 2, true, Except.error "boom"⟩, ⟨"t", 1, true, Except.ok 9⟩]) "f" =
      some ⟨none, false, some "boom"⟩ ∧
    dictGet (runAnalysisList [(⟨"s", 3, true, Except.ok 1⟩ : Plugin Nat),
        ⟨"f", 2, true, Except.error "boom"⟩, ⟨"t", 1, true, Except.ok 9⟩]) "t" =
      dictGet (runAnalysisList [(⟨"s", 3, true, Except.ok 1⟩ : Plugin Nat),
        ⟨"f", 2, true, Except.ok 5⟩, ⟨"t", 1, true, Except.ok 9⟩]) "t" ∧
    dictGet (runAnalysisList [(⟨"s", 3, true, Except.ok 1⟩ : Plugin Nat),
        ⟨"f", 2, true, Except.error "boom"⟩, ⟨"t", 1, true, Except.ok 9⟩]) "t" =
      some ⟨some 9, true, none⟩ := by
  have h := c1_plugin_failure_isolation [(⟨"s", 3, true, Except.ok 1⟩ : Plugin Nat)]
    [(⟨"t", 1, true, Except.ok 9⟩ : Plugin Nat)] "f" 2 "boom" 5 (by decide)
  exact ⟨h.1, h.2.1 ⟨"t", 1, true, Except.ok 9⟩ (by simp),
    h.2.2 ⟨"t", 1, true, Except.ok 9⟩ (by simp) rfl 9 rfl⟩

/-- `insertDesc` permutes consing. -/
theorem insertDesc_perm {D : Type} (p : Plugin D) :
    ∀ l : List (Plugin D), (insertDesc p l).Perm (p :: l) := by
  intro l
  induction l with
  | nil => simp [insertDesc]
  | cons q rest ih =>
      by_cases h : q.priority ≤ p.priority
      · simp [insertDesc, h]
      · rw [insertDesc, if_neg h]
        exact (ih.cons q).trans (List.Perm.swap p q rest)

/-- `sortDesc` is a permutation of its input. -/
theorem sortDesc_perm {D : Type} :
    ∀ l : List (Plugin D), (sortDesc l).Perm l := by
  intro l
  induction l with
  | nil => simp [sortDesc]
  | cons p rest ih => exact (insertDesc_perm p (sortDesc rest)).trans (ih.cons p)

/-- `insertDesc` preserves the non-increasing-priority invariant. -/
theorem insertDesc_sorted {D : Type} (p : Plugin D) :
    ∀ l : List (Plugin D),
      l.Pairwise (fun a b => b.priority ≤ a.priority) →
      (insertDesc p l).Pairwise (fun a b => b.priority ≤ a.priority) := by
  intro l
  induction l with
  | nil => intro _; simp [insertDesc]
  | cons q rest ih =>
      intro hsorted
      rw [List.pairwise_cons] at hsorted
      by_cases h : q.priority ≤ p.priority
      · rw [insertDesc, if_pos h]
        rw [List.pairwise_cons]
        constructor
        · intro x hx
          rcases List.mem_cons.mp hx with rfl | hx'
          · exact h
          · exact le_trans (hsorted.1 x hx') h
        · rw [List.pairwise_cons]
          exact hsorted
      · rw [insertDesc, if_neg h]
        rw [List.pairwise_cons]
        constructor
        · intro x hx
          have hx' := (insertDesc_perm p rest).mem_iff.mp hx
          rcases List.mem_cons.mp hx' with rfl | hx''
          · omega
          · exact hsorted.1 x hx''
        · exact ih hsorted.2

/-- `sortDesc` output is non-increasing in priority. -/
theorem sortDesc_sorted {D : Type} :
    ∀ l : List (Plugin D),
      (sortDesc l).Pairwise (fun a b => b.priority ≤ a.priority) := by
  intro l
  induction l with
  | nil => simp [sortDesc]
  | cons p rest ih => exact insertDesc_sorted p (sortDesc rest) ih

/-- With pairwise-distinct priorities the sorted output is strictly
descending. -/
theorem sortDesc_strict {D : Type} (l : List (Plugin D))
    (hdist : l.Pairwise (fun a b => a.priority ≠ b.priority)) :
    (sortDesc l).Pairwise (fun a b => b.priority < a.priority) := by
  have hsym : Symmetric (fun a b : Plugin D => a.priority ≠ b.priority) :=
    fun _ _ h h' => h h'.symm
  have hdist' : (sortDesc l).Pairwise (fun a b => a.priority ≠ b.priority) :=
    ((sortDesc_perm l).pairwise_iff (fun h => hsym h)).mpr hdist
  have hsorted := sortDesc_sorted l
  exact (hsorted.and hdist').imp (fun h => lt_of_le_of_ne h.1 (fun he => h.2 he.symm))

/-- C6: with pairwise-distinct priorities, a sequential `run_analysis` pass
visits the enabled plugins in strictly descending priority order
(`get_enabled_plugins`), and two managers whose enabled-plugin multisets
coincide produce the same execution order and the same run result — the
order is independent of registration/enable order. -/
theorem c6_sequential_priority_order {D : Type} (m1 m2 : PluginManager D)
    (hdist : (enabledRaw m1).Pairwise (fun a b => a.priority ≠ b.priority))
    (hperm : (enabledRaw m1).Perm (enabledRaw m2)) :
    (getEnabledPlugins m1).Pairwise (fun a b => b.priority < a.priority) ∧
      getEnabledPlugins m1 = getEnabledPlugins m2 ∧
      managerRunAnalysis m1 = managerRunAnalysis m2 := by
  have hsym : Symmetric (fun a b : Plugin D => a.priority ≠ b.priority) :=
    fun _ _ h h' => h h'.symm
  have hdist2 : (enabledRaw m2).Pairwise (fun a b => a.priority ≠ b.priority) :=
    (hperm.pairwise_iff (fun h => hsym h)).mp hdist
  have hs1 := sortDesc_strict (enabledRaw m1) hdist
  have hs2 := sortDesc_strict (enabledRaw m2) hdist2
  have hperm' : (sortDesc (enabledRaw m1)).Perm (sortDesc (enabledRaw m2)) :=
    ((sortDesc_perm _).trans hperm).trans (sortDesc_perm _).symm
  haveI : IsAntisymm (Plugin D) (fun a b => b.priority < a.priority) :=
    ⟨fun _ _ h1 h2 => absurd h2 (not_lt.mpr (le_of_lt h1))⟩
  have heq : sortDesc (enabledRaw m1) = sortDesc (enabledRaw m2) :=
    List.eq_of_perm_of_sorted hperm' hs1 hs2
  refine ⟨hs1, heq, ?_⟩
  unfold managerRunAnalysis getEnabledPlugins
  rw [heq]

/-- C6 witness: two managers holding the same two plugins, registered and
enabled in opposite orders, run in the same strictly descending priority
order with identical results. -/
theorem c6_sequential_priority_order_witness :
    (getEnabledPlugins (⟨[("a", ⟨"a", 1, true, Except.ok 4⟩), ("b", ⟨"b", 5, true, Except.ok 7⟩)],
        ["a", "b"]⟩ : PluginManager Nat)).Pairwise (fun a b => b.priority < a.priority) ∧
      getEnabledPlugins (⟨[("a", ⟨"a", 1, true, Except.ok 4⟩), ("b", ⟨"b", 5, true, Except.ok 7⟩)],
        ["a", "b"]⟩ : PluginManager Nat) =
        getEnabledPlugins (⟨[("b", ⟨"b", 5, true, Except.ok 7⟩), ("a", ⟨"a", 1, true, Except.ok 4⟩)],
        ["b", "a"]⟩ : PluginManager Nat) ∧
      managerRunAnalysis (⟨[("a", ⟨"a", 1, true, Except.ok 4⟩), ("b", ⟨"b", 5, true, Except.ok 7⟩)],
        ["a", "b"]⟩ : PluginManager Nat) =
        managerRunAnalysis (⟨[("b", ⟨"b", 5, true, Except.ok 7⟩), ("a", ⟨"a", 1, true, Except.ok 4⟩)],
        ["b", "a"]⟩ : PluginManager Nat) := by
  refine c6_sequential_priority_order _ _ ?_ ?_
  · have : enabledRaw (⟨[("a", ⟨"a", 1, true, Except.ok 4⟩), ("b", ⟨"b", 5, true, Except.ok 7⟩)],
        ["a", "b"]⟩ : PluginManager Nat) =
        [⟨"a", 1, true, Except.ok 4⟩, ⟨"b", 5, true, Except.ok 7⟩] := by
      simp [enabledRaw, dictGet]
    rw [this]
    simp
  · have h1 : enabledRaw (⟨[("a", ⟨"a", 1, true, Except.ok 4⟩), ("b", ⟨"b", 5, true, Except.ok 7⟩)],
        ["a", "b"]⟩ : PluginManager Nat) =
        [⟨"a", 1, true, Except.ok 4⟩, ⟨"b", 5, true, Except.ok 7⟩] := by
      simp [enabledRaw, dictGet]
    have h2 : enabledRaw (⟨[("b", ⟨"b", 5, true, Except.ok 7⟩), ("a", ⟨"a", 1, true, Except.ok 4⟩)],
        ["b", "a"]⟩ : PluginManager Nat) =
        [⟨"b", 5, true, Except.ok 7⟩, ⟨"a", 1, true, Except.ok 4⟩] := by
      simp [enabledRaw, dictGet]
    rw [h1, h2]
    exact List.Perm.swap _ _ _

/-- The count-power product is positive. -/
theorem prodPow_pos : ∀ l : List ℕ, (∀ k ∈ l, 1 ≤ k) →
    0 < (l.map (fun k => k ^ (2 * k))).prod := by
  intro l
  induction l with
  | nil => intro _; simp
  | cons k rest ih =>
      intro h
      rw [List.map_cons, List.prod_cons]
      exact Nat.mul_pos (Nat.pos_pow_of_pos _ (h k (by simp)))
        (ih (fun q hq => h q (by simp [hq])))

/-- Logarithm of the count-power product: `log Π kᵢ^(2kᵢ) = 2 Σ kᵢ log kᵢ`. -/
theorem logProd : ∀ l : List ℕ, (∀ k ∈ l, 1 ≤ k) →
    Real.log (((l.map (fun k => k ^ (2 * k))).prod : ℕ) : ℝ) =
      2 * (l.map (fun k : ℕ => (k : ℝ) * Real.log k)).sum := by
  intro l
  induction l with
  | nil => intro _; simp
  | cons k rest ih =>
      intro h
      have hk1 : 1 ≤ k := h k (by simp)
      have hrest : ∀ q ∈ rest, 1 ≤ q := fun q hq => h q (by simp [hq])
      have hkpos : (0:ℝ) < (k : ℝ) := by exact_mod_cast hk1
      have hppos : (0:ℝ) < (((rest.map (fun q => q ^ (2 * q))).prod : ℕ) : ℝ) := by
        exact_mod_cast prodPow_pos rest hrest
      have hkpowpos : (0:ℝ) < ((k ^ (2 * k) : ℕ) : ℝ) := by
        have : 0 < k ^ (2 * k) := Nat.pos_pow_of_pos _ hk1
        exact_mod_cast this
      rw [List.map_cons, List.prod_cons, Nat.cast_mul,
        Real.log_mul (ne_of_gt hkpowpos) (ne_of_gt hppos), Nat.cast_pow, Real.log_pow,
        ih hrest, List.map_cons, List.sum_cons, Nat.cast_mul]
      push_cast
      ring

/-- Shifting a weighted log sum by a constant. -/
theorem sumShift (C : ℝ) : ∀ l : List ℕ,
    (l.map (fun k : ℕ => (k : ℝ) * (Real.log k - C))).sum =
      (l.map (fun k : ℕ => (k : ℝ) * Real.log k)).sum - (l.sum : ℝ) * C := by
  intro l
  induction l with
  | nil => simp
  | cons k rest ih =>
      rw [List.map_cons, List.sum_cons, List.map_cons, List.sum_cons, ih, List.sum_cons,
        Nat.cast_add]
      ring

/-- The entropy threshold in exact integer form: for positive counts summing
to a positive length, `-Σ (k/L)·log2 (k/L) > 4.5` iff
`2^(9L) · Π k^(2k) < L^(2L)`. -/
theorem entropySum_gt_iff (l : List ℕ) (L : ℕ) (hk : ∀ k ∈ l, 1 ≤ k)
    (hL : 1 ≤ L) (hsum : l.sum = L) :
    (-(l.map (fun k : ℕ => ((k : ℝ) / L) * Real.logb 2 ((k : ℝ) / L))).sum > 4.5) ↔
      (2 ^ (9 * L) * (l.map (fun k => k ^ (2 * k))).prod < L ^ (2 * L)) := by
  have hL0 : (0:ℝ) < (L : ℝ) := by exact_mod_cast hL
  have hlog2 : (0:ℝ) < Real.log 2 := Real.log_pos (by norm_num)
  have hmapeq : l.map (fun k : ℕ => ((k : ℝ) / L) * Real.logb 2 ((k : ℝ) / L)) =
      l.map (fun k : ℕ => ((k : ℝ) * (Real.log k - Real.log L)) * (1 / ((L : ℝ) * Real.log 2))) := by
    apply List.map_congr_left
    intro k hk'
    have hk0 : (0:ℝ) < (k : ℝ) := by exact_mod_cast hk k hk'
    rw [← Real.log_div_log, Real.log_div (ne_of_gt hk0) (ne_of_gt hL0)]
    field_simp
  rw [hmapeq, List.sum_map_mul_right, sumShift, hsum]
  have hkey : (-(((l.map (fun k : ℕ => (k : ℝ) * Real.log k)).sum - (L : ℝ) * Real.log L) *
        (1 / ((L : ℝ) * Real.log 2))) > 4.5) ↔
      (4.5 * ((L : ℝ) * Real.log 2) <
        (L : ℝ) * Real.log L - (l.map (fun k : ℕ => (k : ℝ) * Real.log k)).sum) := by
    rw [show -(((l.map (fun k : ℕ => (k : ℝ) * Real.log k)).sum - (L : ℝ) * Real.log L) *
          (1 / ((L : ℝ) * Real.log 2))) =
        ((L : ℝ) * Real.log L - (l.map (fun k : ℕ => (k : ℝ) * Real.log k)).sum) /
          ((L : ℝ) * Real.log 2) from by ring]
    rw [gt_iff_lt, lt_div_iff₀ (by positivity)]
  rw [hkey]
  have hppos : 0 < (l.map (fun k => k ^ (2 * k))).prod := prodPow_pos l hk
  have hlog1 : Real.log ((2 : ℝ) ^ (9 * L)) = (9 * L : ℕ) * Real.log 2 :=
    Real.log_pow 2 (9 * L) ▸ rfl
  have hlog2' : Real.log ((L : ℝ) ^ (2 * L)) = (2 * L : ℕ) * Real.log L :=
    Real.log_pow (L : ℝ) (2 * L) ▸ rfl
  have hlogp := logProd l hk
  have hmid : (4.5 * ((L : ℝ) * Real.log 2) <
        (L : ℝ) * Real.log L - (l.map (fun k : ℕ => (k : ℝ) * Real.log k)).sum) ↔
      (Real.log ((2 : ℝ) ^ (9 * L) * (((l.map (fun k => k ^ (2 * k))).prod : ℕ) : ℝ)) <
        Real.log ((L : ℝ) ^ (2 * L))) := by
    rw [Real.log_mul (by positivity) (by positivity), hlog1, hlog2', hlogp]
    push_cast
    constructor
    · intro h; nlinarith [h]
    · intro h; nlinarith [h]
  rw [hmid]
  rw [Real.log_lt_log_iff (by positivity) (by positivity)]
  constructor
  · intro h; exact_mod_cast h
  · intro h; exact_mod_cast h

/-- The exact integer test `entropyGt45` agrees with the real-valued
`shannonEntropy s > 4.5` of the source. -/
theorem entropyGt45_iff (s : String) :
    entropyGt45 s = true ↔ shannonEntropy s > 4.5 := by
  by_cases h0 : s.length = 0
  · have hl : s.toList = [] := by
      have hlen : s.toList.length = 0 := h0
      exact List.length_eq_zero.mp hlen
    rw [shannonEntropy, if_pos h0]
    simp only [entropyGt45, strCounts, hl, h0]
    norm_num
  · have hL : 1 ≤ s.length := Nat.one_le_iff_ne_zero.mpr h0
    have hk : ∀ k ∈ strCounts s, 1 ≤ k := by
      intro k hkmem
      rw [strCounts, List.mem_map] at hkmem
      obtain ⟨c, hc, rfl⟩ := hkmem
      exact List.count_pos_iff.mpr (List.mem_dedup.mp hc)
    have hsum : (strCounts s).sum = s.length := by
      rw [strCounts]
      exact List.sum_map_count_dedup_eq_length s.toList
    rw [shannonEntropy, if_neg h0]
    rw [show (entropyGt45 s = true) ↔
        (2 ^ (9 * s.length) * ((strCounts s).map (fun k => k ^ (2 * k))).prod <
          s.length ^ (2 * s.length)) from by simp [entropyGt45]]
    exact (entropySum_gt_iff (strCounts s) s.length hk hL hsum).symm

/-- The `interesting` bucket after appending one string and capping. -/
theorem interestingOf_append (s : String) :
    interestingOf ((dictAppend categoriesInit "interesting" s).map
      (fun kv => (kv.1, kv.2.take 200))) = [s] := by
  simp [categoriesInit, dictAppend, interestingOf, dictGet, List.find?]

/-- The `interesting` bucket of the untouched category dict. -/
theorem interestingOf_init :
    interestingOf (categoriesInit.map (fun kv => (kv.1, kv.2.take 200))) = [] := by
  simp [categoriesInit, interestingOf, dictGet, List.find?]

/-- C7 amended: a string matching no configured category pattern lands in
the `interesting` category iff it is longer than 10 characters and
`_is_interesting` holds for it (entropy above 4.5 bits/char, base64 shape,
a 16+ hex run, or a 32+ alphanumeric run) — not iff it merely contains an
alphabetic character; strings failing this test (or no longer than 10, or
shorter than 4) appear in no category. -/
theorem c7_interesting_fallback (s : String) (hnc : matchesSomeCategory s = false) :
    s ∈ interestingOf (categorizeStrings [s]) ↔
      (10 < s.length ∧ isInteresting s = true) := by
  have hfind : categoryPatterns.find? (fun cp => cp.2.any (fun r => reSearch r s)) = none := by
    rw [List.find?_eq_none]
    intro cp hcp
    rw [matchesSomeCategory, List.any_eq_false] at hnc
    simpa using hnc cp hcp
  by_cases h4 : s.length < 4
  · have hloop : categorizeLoop [s] [] categoriesInit = categoriesInit := by
      simp [categorizeLoop, h4]
    rw [categorizeStrings, hloop, interestingOf_init]
    simp
    omega
  · have hloop : categorizeLoop [s] [] categoriesInit =
        (if 10 < s.length ∧ isInteresting s = true then
          dictAppend categoriesInit "interesting" s else categoriesInit) := by
      simp [categorizeLoop, h4, hfind]
    rw [categorizeStrings, hloop]
    by_cases hint : 10 < s.length ∧ isInteresting s = true
    · rw [if_pos hint, interestingOf_append]
      simp [hint]
    · rw [if_neg hint, interestingOf_init]
      simp [hint]

/-- C7 witness: the amended theorem applied to a 12-character string of
hashes, which matches no category pattern, is longer than 10, but fails all
interest heuristics and so is dropped. -/
theorem c7_interesting_fallback_witness :
    matchesSomeCategory "############" = false ∧
      ("############" ∈ interestingOf (categorizeStrings ["############"]) ↔
        (10 < "############".length ∧ isInteresting "############" = true)) :=
  ⟨by decide, c7_interesting_fallback "############" (by decide)⟩

/-- C7 counterexample: the 20-digit string `19283746550192837465` matches no
category pattern and contains no alphabetic character, yet the code places
it in `interesting` (it is base64-shaped), so the claimed
"length > 10 and has a letter" fallback rule is not the code's rule. -/
theorem c7_counterexample :
    matchesSomeCategory "19283746550192837465" = false ∧
      "19283746550192837465" ∈ interestingOf (categorizeStrings ["19283746550192837465"]) ∧
      "19283746550192837465".toList.any Char.isAlpha = false := by
  refine ⟨by decide, ?_, by decide⟩
  decide
